import Mathlib

/-!
Verification development for the GeneForge iterative circuit-design loop.

The repository's planning documents describe a design/simulate/analyze/refine
feedback loop (Performance Evaluator, Refinement Planner, Iteration
Controller).  The loop is specified in prose only; the definitions below are a
shallow embedding of that specification, faithful to its words, over exact
rational arithmetic.
-/

namespace GeneForge

/-- Modelled from the spec: a characterized genetic part with its quantitative
transfer-function parameters (basal/maximal expression, Hill coefficient,
repression threshold).  The part implementation is absent from the repository;
only the data model section of the specification describes it. -/
structure Part where
  id : Nat
  basal : ℚ
  maximal : ℚ
  hillCoeff : ℚ
  threshold : ℚ
deriving DecidableEq, Repr

/-- Modelled from the spec: one gate/role of the circuit together with the
characterized part assigned to it and its RBS translation rate. -/
structure GateAssign where
  gate : Nat
  part : Part
  rbsStrength : ℚ
deriving DecidableEq, Repr

/-- Modelled from the spec: a PartAssignment maps each logic-gate/role of the
CircuitSpec to a specific characterized part; `outputGate` names the gate whose
promoter drives the reporter output, `upstreamGate` the rate-limiting upstream
regulator used by the response-time rule. -/
structure PartAssignment where
  gates : List GateAssign
  outputGate : Nat
  upstreamGate : Nat
deriving DecidableEq, Repr

/-- Modelled from the spec: one row of the target truth table — an input
combination and the expected ON/OFF classification of the output. -/
structure SpecRow where
  inputs : List Bool
  expected : Bool
deriving DecidableEq, Repr

/-- Modelled from the spec: a CircuitSpec is the target truth table plus the
optional quantitative constraints (OFF leak bound, minimum ON level, response
time bound) and the configurable ON-classification fraction. -/
structure CircuitSpec where
  rows : List SpecRow
  onFraction : ℚ
  leakBound : Option ℚ
  onMin : Option ℚ
  rtBound : Option ℚ
deriving DecidableEq, Repr

/-- Modelled from the spec: a SimulationResult holds the per-input-combination
steady-state output level (one entry per truth-table row) and, for time-course
runs, the measured response time. -/
structure SimulationResult where
  levels : List ℚ
  responseTime : Option ℚ
deriving DecidableEq, Repr

/-- Modelled from the spec: a Diagnosis reports, per truth-table row, whether
the simulated classification matches the spec, together with each quantitative
metric, its declared bound and its violation magnitude (0 if satisfied). -/
structure Diagnosis where
  rowOk : List Bool
  leakActual : Option ℚ
  leakLimit : Option ℚ
  leakViolation : ℚ
  onActual : Option ℚ
  onLimit : Option ℚ
  onViolation : ℚ
  rtActual : Option ℚ
  rtLimit : Option ℚ
  rtViolation : ℚ
deriving DecidableEq, Repr

/-- Modelled from the spec: a RefinementAction is a single proposed corrective
edit — swap the part of a gate (with an exclusion on the part already tried),
weaken the output-driving promoter, strengthen the promoter or its RBS,
increase the upstream regulator's expression rate, or accept the design. -/
inductive RefinementAction where
  | swapPart (gate : Nat) (excluded : Nat)
  | weakenPromoter (gate : Nat) (mag : ℚ)
  | strengthenPromoter (gate : Nat) (mag : ℚ)
  | strengthenRBS (gate : Nat) (mag : ℚ)
  | increaseUpstreamRate (gate : Nat) (mag : ℚ)
  | accept
deriving DecidableEq, Repr

/-- Maximal observed output level across all truth-table rows. -/
def maxLevel (ls : List ℚ) : ℚ := ls.foldr max 0

/-- Maximal output level among the rows whose expected classification is `b`. -/
def maxLevelFor (rows : List SpecRow) (ls : List ℚ) (b : Bool) : ℚ :=
  maxLevel (((rows.zip ls).filter (fun p => p.1.expected == b)).map (fun p => p.2))

/-- Minimal output level among the rows expected ON (`none` when there is no
ON row). -/
def minOnLevel (rows : List SpecRow) (ls : List ℚ) : Option ℚ :=
  match ((rows.zip ls).filter (fun p => p.1.expected == true)).map (fun p => p.2) with
  | [] => none
  | x :: xs => some (xs.foldr min x)

/-- Violation magnitude of an upper bound: `actual - bound` when the metric
exceeds its bound, else 0 (spec: record the signed violation magnitude, 0 if
satisfied). -/
def upperViolation (actual : ℚ) (bound : ℚ) : ℚ :=
  if bound < actual then actual - bound else 0

/-- Violation magnitude of a lower bound: `bound - actual` when the metric
falls short, else 0. -/
def lowerViolation (actual : ℚ) (bound : ℚ) : ℚ :=
  if actual < bound then bound - actual else 0

/-- Modelled from the spec: the Performance Evaluator.  It compares one
SimulationResult against the CircuitSpec: each row is classified ON when its
level exceeds `onFraction` of the maximal observed level, and a mismatch with
the expected classification is a logic failure; the leak ratio (maximal
OFF-level over maximal ON-level), the minimal ON level and the response time
are compared against their declared bounds, recording violation magnitudes
(0 if satisfied).  The Evaluator implementation is absent from the repository. -/
def evaluate (sr : SimulationResult) (cs : CircuitSpec) : Diagnosis :=
  let m := maxLevel sr.levels
  let rowOk := (cs.rows.zip sr.levels).map
    (fun p => decide (cs.onFraction * m < p.2) == p.1.expected)
  let leakA := match cs.leakBound with
    | none => none
    | some _ => some (maxLevelFor cs.rows sr.levels false / maxLevelFor cs.rows sr.levels true)
  let leakV := match leakA, cs.leakBound with
    | some a, some b => upperViolation a b
    | _, _ => 0
  let onA := match cs.onMin with
    | none => none
    | some _ => minOnLevel cs.rows sr.levels
  let onV := match onA, cs.onMin with
    | some a, some b => lowerViolation a b
    | _, _ => 0
  let rtV := match sr.responseTime, cs.rtBound with
    | some a, some b => upperViolation a b
    | _, _ => 0
  { rowOk := rowOk
    leakActual := leakA
    leakLimit := cs.leakBound
    leakViolation := leakV
    onActual := onA
    onLimit := cs.onMin
    onViolation := onV
    rtActual := sr.responseTime
    rtLimit := cs.rtBound
    rtViolation := rtV }

/-- A Diagnosis contains a logic failure when some row's classification is
wrong. -/
def hasLogicFailure (d : Diagnosis) : Bool := d.rowOk.any (fun b => !b)

/-- A Diagnosis reports zero violations when every row is classified correctly
and every quantitative violation magnitude is 0. -/
def zeroViol (d : Diagnosis) : Bool :=
  d.rowOk.all id && decide (d.leakViolation = 0) && decide (d.onViolation = 0)
    && decide (d.rtViolation = 0)

/-- Total violation magnitude of a Diagnosis: one unit per logic-failing row
plus the quantitative violation magnitudes (the score minimized by the
best-so-far tracking). -/
def totalViolation (d : Diagnosis) : ℚ :=
  (d.rowOk.count false : ℚ) + d.leakViolation + d.onViolation + d.rtViolation

/-- Modelled from the spec: the dynamic ranges the two Sequence Tuning
adapters report as achievable, consulted by the planner's rule 3. -/
structure TuningInfo where
  promRange : ℚ
  rbsRange : ℚ
deriving DecidableEq, Repr

/-- Default gate assignment used for out-of-range lookups. -/
def dfltGate : GateAssign := { gate := 0, part := ⟨0, 0, 0, 0, 0⟩, rbsStrength := 0 }

/-- The gate assignment driving the output. -/
def outGate (pa : PartAssignment) : GateAssign := pa.gates.getD pa.outputGate dfltGate

/-- Overage of an upper-bounded metric as a multiplicative factor
(e.g. leak 0.25 against bound 0.10 gives 2.5). -/
def overageOf (actual : Option ℚ) (bound : Option ℚ) : ℚ :=
  match actual, bound with
  | some a, some b => a / b
  | _, _ => 1

/-- Shortfall of a lower-bounded metric as a multiplicative factor. -/
def shortfallOf (actual : Option ℚ) (bound : Option ℚ) : ℚ :=
  match actual, bound with
  | some a, some b => b / a
  | _, _ => 1

/-- Previous iteration's action together with whether it improved the score
(the history the planner's rule 3 consults). -/
abbrev PlannerHist := Option (RefinementAction × Bool)

/-- True when the previous action was a promoter strengthening that brought no
improvement (rule 3 then switches to the RBS adapter). -/
def promTriedWithoutGain (hist : PlannerHist) : Bool :=
  match hist with
  | some (RefinementAction.strengthenPromoter _ _, improved) => !improved
  | _ => false

/-- Modelled from the spec: the Refinement Planner.  Given a Diagnosis, the
current PartAssignment, the tuning adapters' reported dynamic ranges and the
previous action with its outcome, it emits the single corrective action of the
highest-priority applicable rule: (1) a logic failure yields an alternate part
assignment for the offending gate with an exclusion on the part already tried;
(2) else a leak violation yields a weakening of the output-driving promoter by
the overage factor; (3) else an ON-level shortfall strengthens the promoter or
its RBS, whichever adapter reports the larger range, switching to the RBS if a
promoter strengthening was just tried without improvement; (4) else a
response-time violation increases the upstream regulator's rate; (5) else the
terminal accept action.  The Planner implementation is absent from the
repository. -/
def plan (d : Diagnosis) (pa : PartAssignment) (tune : TuningInfo)
    (hist : PlannerHist) : RefinementAction :=
  if hasLogicFailure d then
    RefinementAction.swapPart pa.outputGate (outGate pa).part.id
  else if 0 < d.leakViolation then
    RefinementAction.weakenPromoter pa.outputGate (overageOf d.leakActual d.leakLimit)
  else if 0 < d.onViolation then
    if promTriedWithoutGain hist then
      RefinementAction.strengthenRBS pa.outputGate (shortfallOf d.onActual d.onLimit)
    else if tune.rbsRange ≤ tune.promRange then
      RefinementAction.strengthenPromoter pa.outputGate (shortfallOf d.onActual d.onLimit)
    else
      RefinementAction.strengthenRBS pa.outputGate (shortfallOf d.onActual d.onLimit)
  else if 0 < d.rtViolation then
    RefinementAction.increaseUpstreamRate pa.upstreamGate (overageOf d.rtActual d.rtLimit)
  else
    RefinementAction.accept

/-- Modelled from the spec: a DesignVersion — an ordered revision of the
design, holding its PartAssignment and provenance (which action produced it,
from which prior version). -/
structure DesignVersion where
  id : Nat
  assignment : PartAssignment
  parent : Option Nat
  producedBy : Option RefinementAction
deriving DecidableEq, Repr

/-- Modelled from the spec: the failure taxonomy of the error-handling design
(budget exhaustion is the separate best-effort `exhausted` state, not a
failure). -/
inductive FailureKind where
  | synthesisUnsatisfiable
  | simulationNonconvergent
  | adapterTimeout
deriving DecidableEq, Repr

/-- Modelled from the spec: the Iteration Controller's states, each carrying
the data the phase works on.  `converged`, `exhausted` and `failed` are
terminal. -/
inductive CState where
  | designing
  | simulating (dv : DesignVersion)
  | evaluating (dv : DesignVersion) (sr : SimulationResult)
  | refining (dv : DesignVersion) (d : Diagnosis)
  | converged (dv : DesignVersion)
  | exhausted
  | failed (e : FailureKind)
deriving DecidableEq, Repr

/-- A state is terminal when the controller never leaves it. -/
def CState.isTerminal : CState → Bool
  | CState.converged _ => true
  | CState.exhausted => true
  | CState.failed _ => true
  | _ => false

/-- Modelled from the spec: the external collaborators and configuration of
one design session — the CircuitSpec, the iteration budget, the Circuit
Synthesizer adapter (initial synthesis and re-synthesis with an exclusion
constraint), the Circuit Simulator adapter, and the tuning adapters' reported
ranges.  The adapters are opaque deterministic functions returning `none` on
failure. -/
structure Config where
  circSpec : CircuitSpec
  maxIter : Nat
  synth : CircuitSpec → Option PartAssignment
  resynth : Nat → Nat → PartAssignment → PartAssignment
  sim : PartAssignment → Option SimulationResult
  tune : TuningInfo

/-- Modelled from the spec: applying a RefinementAction through the
appropriate adapter to produce the next PartAssignment — re-synthesis for a
part swap, a basal-activity decrease for a promoter weakening, a maximal-rate
or RBS-rate increase for the strengthening and response-time rules. -/
def applyAction (cfg : Config) (a : RefinementAction) (pa : PartAssignment) :
    PartAssignment :=
  match a with
  | RefinementAction.swapPart g ex => cfg.resynth g ex pa
  | RefinementAction.weakenPromoter g m =>
      { pa with gates := pa.gates.map (fun ga =>
          if ga.gate = g then { ga with part := { ga.part with basal := ga.part.basal / m } }
          else ga) }
  | RefinementAction.strengthenPromoter g m =>
      { pa with gates := pa.gates.map (fun ga =>
          if ga.gate = g then { ga with part := { ga.part with maximal := ga.part.maximal * m } }
          else ga) }
  | RefinementAction.strengthenRBS g m =>
      { pa with gates := pa.gates.map (fun ga =>
          if ga.gate = g then { ga with rbsStrength := ga.rbsStrength * m }
          else ga) }
  | RefinementAction.increaseUpstreamRate g m =>
      { pa with gates := pa.gates.map (fun ga =>
          if ga.gate = g then { ga with part := { ga.part with maximal := ga.part.maximal * m } }
          else ga) }
  | RefinementAction.accept => pa

/-- Modelled from the spec: the per-session record — current controller state,
iteration counter, the append-only DesignVersion history, the
SimulationResults each keyed by the id of the one DesignVersion it is attached
to, the per-version scores, the best-scoring version so far, the previous
action and score (for the planner's history), and the count of Circuit
Simulator invocations. -/
structure Session where
  state : CState
  iter : Nat
  nextId : Nat
  history : List DesignVersion
  results : List (Nat × SimulationResult)
  scores : List (DesignVersion × ℚ)
  best : Option (DesignVersion × ℚ)
  prevAction : Option RefinementAction
  lastImproved : Bool
  prevScore : Option ℚ
  simCalls : Nat
deriving DecidableEq, Repr

/-- The session every design run starts from. -/
def initSession : Session :=
  { state := CState.designing
    iter := 0
    nextId := 0
    history := []
    results := []
    scores := []
    best := none
    prevAction := none
    lastImproved := true
    prevScore := none
    simCalls := 0 }

/-- Best-scoring version bookkeeping: keep the stored best unless the newly
evaluated version scores strictly lower. -/
def updateBest (best : Option (DesignVersion × ℚ)) (dv : DesignVersion)
    (sc : ℚ) : Option (DesignVersion × ℚ) :=
  match best with
  | none => some (dv, sc)
  | some (v0, s0) => if sc < s0 then some (dv, sc) else some (v0, s0)

/-- Whether the new score improves on the previous iteration's score. -/
def improvedOver (prev : Option ℚ) (sc : ℚ) : Bool :=
  match prev with
  | none => true
  | some p => decide (sc < p)

/-- The action the Refinement Planner proposes in the Refining phase, fed the
previous action and whether it improved the score. -/
def plannedAction (cfg : Config) (s : Session) (dv : DesignVersion)
    (d : Diagnosis) : RefinementAction :=
  plan d dv.assignment cfg.tune (s.prevAction.map (fun a0 => (a0, s.lastImproved)))

/-- The new DesignVersion produced by applying the planned action, recording
its provenance (parent version and producing action). -/
def nextVersion (cfg : Config) (s : Session) (dv : DesignVersion)
    (d : Diagnosis) : DesignVersion :=
  ⟨s.nextId, applyAction cfg (plannedAction cfg s dv d) dv.assignment,
    some dv.id, some (plannedAction cfg s dv d)⟩

/-- Modelled from the spec: one transition of the Iteration Controller's state
machine.  Designing obtains the initial assignment from the synthesizer
(Failed with `synthesisUnsatisfiable` when it cannot); Simulating invokes the
simulator (Failed with `simulationNonconvergent` on failure, the result
appended and attached to the current version's id on success); Evaluating runs
the Performance Evaluator, records the version's score, updates the best-so-far
and moves to Converged on zero violations and to Refining otherwise; Refining
runs the Refinement Planner, applies its action to produce a new DesignVersion
appended to the history, increments the counter, and moves to Exhausted when
the counter exceeds the configured maximum, else back to Simulating.  Terminal
states never change. -/
def step (cfg : Config) (s : Session) : Session :=
  match s.state with
  | CState.designing =>
      match cfg.synth cfg.circSpec with
      | none => { s with state := CState.failed FailureKind.synthesisUnsatisfiable }
      | some pa =>
          let dv : DesignVersion := ⟨s.nextId, pa, none, none⟩
          { s with state := CState.simulating dv
                   nextId := s.nextId + 1
                   history := s.history ++ [dv] }
  | CState.simulating dv =>
      match cfg.sim dv.assignment with
      | none => { s with state := CState.failed FailureKind.simulationNonconvergent
                         simCalls := s.simCalls + 1 }
      | some sr => { s with state := CState.evaluating dv sr
                            simCalls := s.simCalls + 1
                            results := s.results ++ [(dv.id, sr)] }
  | CState.evaluating dv sr =>
      let d := evaluate sr cfg.circSpec
      let sc := totalViolation d
      let s' := { s with scores := s.scores ++ [(dv, sc)]
                         best := updateBest s.best dv sc
                         prevScore := some sc
                         lastImproved := improvedOver s.prevScore sc }
      if zeroViol d then { s' with state := CState.converged dv }
      else { s' with state := CState.refining dv d }
  | CState.refining dv d =>
      let a := plannedAction cfg s dv d
      let dv' := nextVersion cfg s dv d
      let s' := { s with history := s.history ++ [dv']
                         nextId := s.nextId + 1
                         iter := s.iter + 1
                         prevAction := some a }
      if cfg.maxIter < s.iter + 1 then { s' with state := CState.exhausted }
      else { s' with state := CState.simulating dv' }
  | CState.converged _ => s
  | CState.exhausted => s
  | CState.failed _ => s

/-- Run `n` transitions of the controller. -/
def runSteps (cfg : Config) : Nat → Session → Session
  | 0, s => s
  | n + 1, s => runSteps cfg n (step cfg s)

/-- Modelled from the spec: the bounded decoding loop behind the notebooks'
text-generation calls; the notebooks delegate it to an external library whose
documented contract stops producing tokens once the sequence reaches
`maxLength` or the end-of-sequence token appears.  `stepTok` is the model's
next-token function. -/
def genLoop (stepTok : List Nat → Nat) (eos : Nat) (maxLength : Nat) :
    Nat → List Nat → List Nat
  | 0, seq => seq
  | fuel + 1, seq =>
      if maxLength ≤ seq.length then seq
      else
        let t := stepTok seq
        if t = eos then seq ++ [t]
        else genLoop stepTok eos maxLength fuel (seq ++ [t])

/-- Modelled from the spec: the full generation call — run the decoding loop
from the initial decoder sequence with enough fuel to reach the length bound. -/
def generate (stepTok : List Nat → Nat) (eos : Nat) (maxLength : Nat)
    (init : List Nat) : List Nat :=
  genLoop stepTok eos maxLength maxLength init

/-! Concrete instances used by the scenario claims and witnesses. -/

/-- The leaky NOT gate CircuitSpec of the scenario: one input, output expected
ON for input 0 and OFF for input 1, OFF leak bound 1/10, ON classification at
half the maximal observed level. -/
def spec9 : CircuitSpec :=
  { rows := [⟨[false], true⟩, ⟨[true], false⟩]
    onFraction := 1/2
    leakBound := some (1/10)
    onMin := none
    rtBound := none }

/-- Initial simulation of the leaky NOT gate: ON = 20, OFF = 5. -/
def sr9a : SimulationResult := { levels := [20, 5], responseTime := none }

/-- Re-simulation after the refinement: ON = 15, OFF = 1. -/
def sr9b : SimulationResult := { levels := [15, 1], responseTime := none }

/-- A one-gate part assignment whose gate 0 drives the output. -/
def pa9 : PartAssignment :=
  { gates := [{ gate := 0, part := ⟨7, 1, 10, 2, 5⟩, rbsStrength := 3 }]
    outputGate := 0
    upstreamGate := 0 }

/-- Tuning ranges used by the concrete scenarios. -/
def tune9 : TuningInfo := ⟨4, 2⟩

/-- The initial DesignVersion of the scenario session. -/
def dv9 : DesignVersion := ⟨0, pa9, none, none⟩

/-- A session configuration over the leaky NOT gate whose simulator always
reports the leaky levels and whose iteration budget is 0. -/
def cfg9 : Config :=
  { circSpec := spec9
    maxIter := 0
    synth := fun _ => some pa9
    resynth := fun _ _ pa => pa
    sim := fun _ => some sr9a
    tune := tune9 }

/-- The same configuration after the refinement: the simulator now reports the
improved levels. -/
def cfg9c : Config :=
  { circSpec := spec9
    maxIter := 5
    synth := fun _ => some pa9
    resynth := fun _ _ pa => pa
    sim := fun _ => some sr9b
    tune := tune9 }

/-- A session sitting in the Evaluating phase with the post-refinement
simulation result. -/
def sess9b : Session := { initSession with state := CState.evaluating dv9 sr9b }

/-- A configuration whose synthesizer can produce no assignment. -/
def cfg6 : Config :=
  { circSpec := spec9
    maxIter := 5
    synth := fun _ => none
    resynth := fun _ _ pa => pa
    sim := fun _ => some sr9a
    tune := tune9 }

/-- A Diagnosis holding both a logic failure (row 0 misclassified) and a leak
violation, as in the priority-ordering scenario. -/
def diag4 : Diagnosis :=
  { rowOk := [false, true]
    leakActual := some (1/4)
    leakLimit := some (1/10)
    leakViolation := 3/20
    onActual := none
    onLimit := none
    onViolation := 0
    rtActual := none
    rtLimit := none
    rtViolation := 0 }

/-! Theorems settling the claims. -/

/-- C1: for every Diagnosis, PartAssignment, tuning information and planner
history, the Refinement Planner returns exactly one RefinementAction — never
zero and never more than one. -/
theorem planner_emits_exactly_one_action (d : Diagnosis) (pa : PartAssignment)
    (tune : TuningInfo) (hist : PlannerHist) :
    ∃! a : RefinementAction, plan d pa tune hist = a :=
  ⟨plan d pa tune hist, rfl, fun _ h => h.symm⟩

/-- C2: the Refinement Planner is deterministic — two runs on identical inputs
(same Diagnosis, same PartAssignment, same tuning data and same refinement
history) propose the identical RefinementAction. -/
theorem planner_deterministic (d d' : Diagnosis) (pa pa' : PartAssignment)
    (t t' : TuningInfo) (h h' : PlannerHist)
    (hd : d = d') (hpa : pa = pa') (ht : t = t') (hh : h = h') :
    plan d pa t h = plan d' pa' t' h' := by
  subst hd; subst hpa; subst ht; subst hh; rfl

/-- Witness for C2: the determinism theorem applied to the concrete leaky NOT
gate diagnosis. -/
theorem planner_deterministic_witness :
    diag4 = diag4 ∧ pa9 = pa9 ∧ tune9 = tune9 ∧
      plan diag4 pa9 tune9 none = plan diag4 pa9 tune9 none :=
  ⟨rfl, rfl, rfl,
    planner_deterministic diag4 diag4 pa9 pa9 tune9 tune9 none none rfl rfl rfl rfl⟩

/-- C4: when the Diagnosis contains a logic failure, the Planner proposes a
part-assignment change for the offending gate and never a leak-targeted
promoter weakening, regardless of any quantitative violations also present. -/
theorem logic_failure_takes_precedence (d : Diagnosis) (pa : PartAssignment)
    (tune : TuningInfo) (hist : PlannerHist) (h : hasLogicFailure d = true) :
    (∃ g ex, plan d pa tune hist = RefinementAction.swapPart g ex) ∧
      ∀ g m, plan d pa tune hist ≠ RefinementAction.weakenPromoter g m := by
  simp only [plan, h, if_true]
  exact ⟨⟨pa.outputGate, (outGate pa).part.id, rfl⟩, by simp⟩

/-- Witness for C4: a Diagnosis with both a logic failure and a leak violation
yields a part swap, never a promoter weakening. -/
theorem logic_failure_takes_precedence_witness :
    hasLogicFailure diag4 = true ∧
      ((∃ g ex, plan diag4 pa9 tune9 none = RefinementAction.swapPart g ex) ∧
        ∀ g m, plan diag4 pa9 tune9 none ≠ RefinementAction.weakenPromoter g m) :=
  ⟨by decide, logic_failure_takes_precedence diag4 pa9 tune9 none (by decide)⟩

/-- C5: the Performance Evaluator is a pure function of its two inputs — it is
a mathematical function with no state, and evaluations of equal inputs return
identical Diagnoses. -/
theorem evaluator_deterministic (sr sr' : SimulationResult)
    (cs cs' : CircuitSpec) (hsr : sr = sr') (hcs : cs = cs') :
    evaluate sr cs = evaluate sr' cs' := by
  subst hsr; subst hcs; rfl

/-- Witness for C5: the purity theorem applied to the leaky NOT gate inputs. -/
theorem evaluator_deterministic_witness :
    sr9a = sr9a ∧ spec9 = spec9 ∧ evaluate sr9a spec9 = evaluate sr9a spec9 :=
  ⟨rfl, rfl, evaluator_deterministic sr9a sr9a spec9 spec9 rfl rfl⟩

/-- The decoding loop never grows the sequence beyond the length bound. -/
theorem genLoop_length_le (stepTok : List Nat → Nat) (eos maxLength : Nat) :
    ∀ (fuel : Nat) (seq : List Nat), seq.length ≤ maxLength →
      (genLoop stepTok eos maxLength fuel seq).length ≤ maxLength := by
  intro fuel
  induction fuel with
  | zero => intro seq h; simpa [genLoop] using h
  | succ n ih =>
      intro seq h
      by_cases hlen : maxLength ≤ seq.length
      · simpa [genLoop, hlen] using h
      · have hlt : seq.length < maxLength := Nat.lt_of_not_le hlen
        have hgrow : (seq ++ [stepTok seq]).length ≤ maxLength := by
          simpa [List.length_append] using Nat.succ_le_of_lt hlt
        by_cases heos : stepTok seq = eos
        · simpa [genLoop, hlen, heos] using hgrow
        · simpa [genLoop, hlen, heos] using ih (seq ++ [stepTok seq]) hgrow

/-- C10: for every next-token function and end-of-sequence token, the token
sequence produced by the generation call from the single decoder start token is
bounded by the `maxLength` argument of the call — 3000 tokens in the first
generation cell and 1000 in the second. -/
theorem generate_bounded_by_max_length (stepTok : List Nat → Nat) (eos : Nat) :
    (generate stepTok eos 3000 [0]).length ≤ 3000 ∧
      (generate stepTok eos 1000 [0]).length ≤ 1000 :=
  ⟨genLoop_length_le stepTok eos 3000 3000 [0] (by norm_num),
    genLoop_length_le stepTok eos 1000 1000 [0] (by norm_num)⟩

/-- C9: the leaky NOT gate scenario.  On the initial simulation (ON = 20,
OFF = 5) the Evaluator reports no logic failure and exactly one quantitative
violation, the leak ratio 5/20 = 1/4 against bound 1/10; the Planner proposes
weakening the output-driving promoter by the 2.5x overage factor; on the
re-simulation (ON = 15, OFF = 1, leak 1/15 < 1/10) the Evaluator reports zero
violations and the controller transitions to Converged. -/
theorem leaky_not_gate_scenario :
    (evaluate sr9a spec9).leakActual = some (1/4) ∧
      hasLogicFailure (evaluate sr9a spec9) = false ∧
      (evaluate sr9a spec9).leakViolation = 3/20 ∧
      (evaluate sr9a spec9).onViolation = 0 ∧
      (evaluate sr9a spec9).rtViolation = 0 ∧
      plan (evaluate sr9a spec9) pa9 tune9 none
        = RefinementAction.weakenPromoter pa9.outputGate (5/2) ∧
      (evaluate sr9b spec9).leakActual = some (1/15) ∧
      zeroViol (evaluate sr9b spec9) = true ∧
      (step cfg9c sess9b).state = CState.converged dv9 := by
  refine ⟨?_, ?_, ?_, ?_, ?_, ?_, ?_, ?_, ?_⟩ <;>
    norm_num [evaluate, plan, step, spec9, sr9a, sr9b, pa9, tune9, dv9, cfg9c, sess9b,
      initSession, maxLevel, maxLevelFor, minOnLevel, upperViolation, lowerViolation,
      hasLogicFailure, zeroViol, totalViolation, overageOf, outGate, updateBest,
      improvedOver]

/-- One controller transition only ever appends to the DesignVersion history
and to the result log. -/
theorem step_appends_only (cfg : Config) (s : Session) :
    s.history <+: (step cfg s).history ∧ s.results <+: (step cfg s).results := by
  cases hs : s.state
  case designing =>
    simp only [step, hs]
    cases cfg.synth cfg.circSpec <;>
      simp [List.prefix_append, List.prefix_rfl]
  case simulating dv =>
    simp only [step, hs]
    cases cfg.sim dv.assignment <;>
      simp [List.prefix_append, List.prefix_rfl]
  case evaluating dv sr =>
    simp only [step, hs]
    split <;> simp [List.prefix_rfl]
  case refining dv d =>
    simp only [step, hs]
    split <;> simp [List.prefix_append, List.prefix_rfl]
  case converged dv => simp [step, hs, List.prefix_rfl]
  case exhausted => simp [step, hs, List.prefix_rfl]
  case failed e => simp [step, hs, List.prefix_rfl]

/-- C8: the design history is append-only — across any number of controller
transitions every prior DesignVersion is preserved unchanged (the old history
is a prefix of the new one: refinement appends a new DesignVersion rather than
mutating the current one), and the log of SimulationResults, each attached to
the single DesignVersion id it was produced for, is likewise only appended to
(re-simulation appends a new result, never mutating an existing one). -/
theorem history_append_only (cfg : Config) (n : Nat) (s : Session) :
    s.history <+: (runSteps cfg n s).history ∧
      s.results <+: (runSteps cfg n s).results := by
  induction n generalizing s with
  | zero => exact ⟨List.prefix_rfl, List.prefix_rfl⟩
  | succ m ih =>
      have h1 := step_appends_only cfg s
      have h2 := ih (step cfg s)
      exact ⟨h1.1.trans h2.1, h1.2.trans h2.2⟩

/-- Terminal states are fixed points of the transition function. -/
theorem step_of_terminal (cfg : Config) (s : Session)
    (h : s.state.isTerminal = true) : step cfg s = s := by
  cases hs : s.state <;> rw [hs] at h <;>
    simp [CState.isTerminal] at h <;> simp [step, hs]

/-- Terminal states are fixed points of any number of transitions. -/
theorem runSteps_of_terminal (cfg : Config) (n : Nat) (s : Session)
    (h : s.state.isTerminal = true) : runSteps cfg n s = s := by
  induction n with
  | zero => rfl
  | succ m ih => rw [runSteps, step_of_terminal cfg s h]; exact ih

/-- Decompose a run into two consecutive runs. -/
theorem runSteps_add (cfg : Config) (a b : Nat) (s : Session) :
    runSteps cfg (a + b) s = runSteps cfg a (runSteps cfg b s) := by
  induction b generalizing s with
  | zero => rfl
  | succ m ih => rw [Nat.add_succ, runSteps, runSteps, ih]

/-- Characterization of a transition out of the Simulating phase. -/
theorem step_at_simulating (cfg : Config) (s : Session) (dv : DesignVersion)
    (h : s.state = CState.simulating dv) :
    (step cfg s).iter = s.iter ∧
      (cfg.sim dv.assignment = none →
        (step cfg s).state = CState.failed FailureKind.simulationNonconvergent) ∧
      (∀ sr, cfg.sim dv.assignment = some sr →
        (step cfg s).state = CState.evaluating dv sr) := by
  cases hsim : cfg.sim dv.assignment <;> simp [step, h, hsim]

/-- Characterization of a transition out of the Evaluating phase. -/
theorem step_at_evaluating (cfg : Config) (s : Session) (dv : DesignVersion)
    (sr : SimulationResult) (h : s.state = CState.evaluating dv sr) :
    (step cfg s).iter = s.iter ∧
      (zeroViol (evaluate sr cfg.circSpec) = true →
        (step cfg s).state = CState.converged dv) ∧
      (zeroViol (evaluate sr cfg.circSpec) = false →
        (step cfg s).state = CState.refining dv (evaluate sr cfg.circSpec)) := by
  by_cases hz : zeroViol (evaluate sr cfg.circSpec) = true
  · simp [step, h, hz]
  · simp [step, h, hz]

/-- Characterization of a transition out of the Refining phase. -/
theorem step_at_refining (cfg : Config) (s : Session) (dv : DesignVersion)
    (d : Diagnosis) (h : s.state = CState.refining dv d) :
    (step cfg s).iter = s.iter + 1 ∧
      (cfg.maxIter < s.iter + 1 → (step cfg s).state = CState.exhausted) ∧
      (s.iter + 1 ≤ cfg.maxIter →
        (step cfg s).state = CState.simulating (nextVersion cfg s dv d)) := by
  by_cases hm : cfg.maxIter < s.iter + 1
  · simp [step, h, hm]
  · simp [step, h, hm]

/-- Three transitions from the Simulating phase either reach a terminal state
or return to Simulating with the iteration counter incremented and still
within the budget. -/
theorem three_steps_from_simulating (cfg : Config) (s : Session)
    (dv : DesignVersion) (h : s.state = CState.simulating dv) :
    (runSteps cfg 3 s).state.isTerminal = true ∨
      (∃ dv', (runSteps cfg 3 s).state = CState.simulating dv') ∧
        (runSteps cfg 3 s).iter = s.iter + 1 ∧ s.iter + 1 ≤ cfg.maxIter := by
  have hrun : runSteps cfg 3 s = step cfg (step cfg (step cfg s)) := rfl
  obtain ⟨h1i, h1f, h1e⟩ := step_at_simulating cfg s dv h
  cases hsim : cfg.sim dv.assignment with
  | none =>
      left
      have t1 : (step cfg s).state.isTerminal = true := by
        rw [h1f hsim]; rfl
      have t2 : (step cfg (step cfg s)).state.isTerminal = true := by
        rw [step_of_terminal _ _ t1]; exact t1
      rw [hrun, step_of_terminal _ _ t2]
      exact t2
  | some sr =>
      have e1 : (step cfg s).state = CState.evaluating dv sr := h1e sr hsim
      obtain ⟨h2i, h2c, h2r⟩ := step_at_evaluating cfg (step cfg s) dv sr e1
      by_cases hz : zeroViol (evaluate sr cfg.circSpec) = true
      · left
        have t2 : (step cfg (step cfg s)).state.isTerminal = true := by
          rw [h2c hz]; rfl
        rw [hrun, step_of_terminal _ _ t2]
        exact t2
      · have hz' : zeroViol (evaluate sr cfg.circSpec) = false :=
          Bool.eq_false_iff.mpr hz
        have e2 : (step cfg (step cfg s)).state
            = CState.refining dv (evaluate sr cfg.circSpec) := h2r hz'
        have e2i : (step cfg (step cfg s)).iter = s.iter := by rw [h2i, h1i]
        obtain ⟨h3i, h3x, h3s⟩ :=
          step_at_refining cfg (step cfg (step cfg s)) dv (evaluate sr cfg.circSpec) e2
        by_cases hmax : cfg.maxIter < s.iter + 1
        · left
          rw [hrun, h3x (by rw [e2i]; exact hmax)]
          rfl
        · right
          have hle : s.iter + 1 ≤ cfg.maxIter := Nat.le_of_not_lt hmax
          refine ⟨⟨nextVersion cfg (step cfg (step cfg s)) dv
            (evaluate sr cfg.circSpec), ?_⟩, ?_, hle⟩
          · rw [hrun, h3s (by rw [e2i]; exact hle)]
          · rw [hrun, h3i, e2i]

/-- From the Simulating phase the controller reaches a terminal state within
`3 * j + 3` transitions, where `j` bounds the remaining iteration budget. -/
theorem simulating_reaches_terminal (cfg : Config) :
    ∀ (j : Nat) (s : Session) (dv : DesignVersion),
      s.state = CState.simulating dv → cfg.maxIter - s.iter ≤ j →
      (runSteps cfg (3 * j + 3) s).state.isTerminal = true := by
  intro j
  induction j with
  | zero =>
      intro s dv h hj
      rcases three_steps_from_simulating cfg s dv h with ht | ⟨_, _, hle⟩
      · simpa using ht
      · omega
  | succ k ih =>
      intro s dv h hj
      have hsplit : 3 * (k + 1) + 3 = (3 * k + 3) + 3 := by ring
      rw [hsplit, runSteps_add]
      rcases three_steps_from_simulating cfg s dv h with ht | ⟨⟨dv', hdv'⟩, hit, hle⟩
      · rw [runSteps_of_terminal _ _ _ ht]
        exact ht
      · exact ih (runSteps cfg 3 s) dv' hdv' (by omega)

/-- C3: for every configuration — in particular every CircuitSpec with a
satisfiable logic table and a non-empty part library — the Iteration
Controller terminates within the bounded number `3 * maxIter + 4` of
transitions, ending in one of the terminal states Converged, Exhausted or
Failed; it never loops forever. -/
theorem controller_terminates (cfg : Config) :
    (runSteps cfg (3 * cfg.maxIter + 4) initSession).state.isTerminal = true := by
  have hsplit : 3 * cfg.maxIter + 4 = (3 * cfg.maxIter + 3) + 1 := by ring
  rw [hsplit, runSteps_add]
  cases hsynth : cfg.synth cfg.circSpec with
  | none =>
      have t1 : (runSteps cfg 1 initSession).state.isTerminal = true := by
        show (step cfg initSession).state.isTerminal = true
        simp [step, initSession, hsynth, CState.isTerminal]
      rw [runSteps_of_terminal _ _ _ t1]
      exact t1
  | some pa =>
      have h1 : (runSteps cfg 1 initSession).state
          = CState.simulating ⟨0, pa, none, none⟩ := by
        show (step cfg initSession).state = _
        simp [step, initSession, hsynth]
      have h1i : (runSteps cfg 1 initSession).iter = 0 := by
        show (step cfg initSession).iter = 0
        simp [step, initSession, hsynth]
      exact simulating_reaches_terminal cfg cfg.maxIter (runSteps cfg 1 initSession)
        ⟨0, pa, none, none⟩ h1 (by omega)

/-- C6: when the Circuit Synthesizer can produce no part assignment for the
CircuitSpec, the controller goes from Designing directly to the terminal
Failed state with the `synthesisUnsatisfiable` error, and the Circuit
Simulator adapter is never invoked. -/
theorem unsat_synthesis_fails_without_simulation (cfg : Config) (n : Nat)
    (hsynth : cfg.synth cfg.circSpec = none) (hn : 1 ≤ n) :
    (runSteps cfg n initSession).state
        = CState.failed FailureKind.synthesisUnsatisfiable ∧
      (runSteps cfg n initSession).simCalls = 0 := by
  obtain ⟨m, rfl⟩ : ∃ m, n = m + 1 := ⟨n - 1, by omega⟩
  rw [runSteps]
  have h1 : step cfg initSession
      = { initSession with state := CState.failed FailureKind.synthesisUnsatisfiable } := by
    simp [step, initSession, hsynth]
  rw [h1, runSteps_of_terminal _ _ _ (by rfl)]
  exact ⟨rfl, rfl⟩

/-- Session invariant: the stored best is a minimal-score entry of the score
log, the log is non-empty whenever the controller is Refining, and it is
non-empty in the Exhausted state. -/
def Inv (s : Session) : Prop :=
  (s.best = none → s.scores = []) ∧
  (∀ v sc, s.best = some (v, sc) →
    (v, sc) ∈ s.scores ∧ ∀ p ∈ s.scores, sc ≤ p.2) ∧
  (∀ dv d, s.state = CState.refining dv d → s.scores ≠ []) ∧
  (s.state = CState.exhausted → s.scores ≠ [])

/-- Appending a newly evaluated score keeps the best-so-far minimal over the
extended score log. -/
theorem updateBest_min (scores : List (DesignVersion × ℚ))
    (best : Option (DesignVersion × ℚ)) (dv : DesignVersion) (sc : ℚ)
    (h1 : best = none → scores = [])
    (h2 : ∀ v s0, best = some (v, s0) →
      (v, s0) ∈ scores ∧ ∀ p ∈ scores, s0 ≤ p.2) :
    (updateBest best dv sc = none → scores ++ [(dv, sc)] = []) ∧
      ∀ v s0, updateBest best dv sc = some (v, s0) →
        (v, s0) ∈ scores ++ [(dv, sc)] ∧ ∀ p ∈ scores ++ [(dv, sc)], s0 ≤ p.2 := by
  cases hb : best with
  | none =>
      have hsc : scores = [] := h1 hb
      subst hsc
      refine ⟨by simp [updateBest], ?_⟩
      intro v s0 hv
      simp only [updateBest] at hv
      obtain ⟨rfl, rfl⟩ := Prod.mk.inj (Option.some.inj hv)
      simp
  | some p =>
      obtain ⟨v0, b0⟩ := p
      obtain ⟨hmem, hmin⟩ := h2 v0 b0 hb
      by_cases hlt : sc < b0
      · refine ⟨by simp [updateBest, hlt], ?_⟩
        intro v s0 hv
        simp only [updateBest, if_pos hlt] at hv
        obtain ⟨rfl, rfl⟩ := Prod.mk.inj (Option.some.inj hv)
        constructor
        · simp
        · intro p hp
          rcases List.mem_append.1 hp with hp | hp
          · exact le_of_lt (lt_of_lt_of_le hlt (hmin p hp))
          · simp at hp
            simp [hp]
      · refine ⟨by simp [updateBest, hlt], ?_⟩
        intro v s0 hv
        simp only [updateBest, if_neg hlt] at hv
        obtain ⟨rfl, rfl⟩ := Prod.mk.inj (Option.some.inj hv)
        constructor
        · exact List.mem_append.2 (Or.inl hmem)
        · intro p hp
          rcases List.mem_append.1 hp with hp | hp
          · exact hmin p hp
          · simp at hp
            simp [hp, le_of_not_lt hlt]

/-- The session invariant is preserved by every controller transition. -/
theorem inv_step (cfg : Config) (s : Session) (hInv : Inv s) :
    Inv (step cfg s) := by
  obtain ⟨h1, h2, h3, h4⟩ := hInv
  cases hs : s.state
  case designing =>
      cases hsynth : cfg.synth cfg.circSpec <;>
        simp only [step, hs, hsynth] <;>
        exact ⟨h1, h2, by simp, by simp⟩
  case simulating dv =>
      cases hsim : cfg.sim dv.assignment <;>
        simp only [step, hs, hsim] <;>
        exact ⟨h1, h2, by simp, by simp⟩
  case evaluating dv sr =>
      have hpush := updateBest_min s.scores s.best dv
        (totalViolation (evaluate sr cfg.circSpec)) h1 h2
      by_cases hz : zeroViol (evaluate sr cfg.circSpec) = true
      · simp only [step, hs, if_pos hz]
        exact ⟨hpush.1, hpush.2, by simp, by simp⟩
      · simp only [step, hs, if_neg hz]
        exact ⟨hpush.1, hpush.2, by simp, by simp⟩
  case refining dv d =>
      have hne : s.scores ≠ [] := h3 dv d hs
      by_cases hm : cfg.maxIter < s.iter + 1
      · simp only [step, hs, if_pos hm]
        exact ⟨h1, h2, by simp, fun _ => hne⟩
      · simp only [step, hs, if_neg hm]
        exact ⟨h1, h2, by simp, by simp⟩
  case converged dv =>
      simp only [step, hs]
      exact ⟨h1, h2, h3, h4⟩
  case exhausted =>
      simp only [step, hs]
      exact ⟨h1, h2, h3, h4⟩
  case failed e =>
      simp only [step, hs]
      exact ⟨h1, h2, h3, h4⟩

/-- The session invariant holds along the whole run. -/
theorem inv_run (cfg : Config) (n : Nat) (s : Session) (hInv : Inv s) :
    Inv (runSteps cfg n s) := by
  induction n generalizing s with
  | zero => exact hInv
  | succ m ih => exact ih (step cfg s) (inv_step cfg s hInv)

/-- The invariant holds in the initial session. -/
theorem inv_init : Inv initSession := by
  refine ⟨fun _ => rfl, ?_, ?_, ?_⟩ <;> simp [initSession, Inv]

/-- C7: whenever a run of the Iteration Controller ends in the Exhausted state
(iteration budget exceeded without convergence), the session returns a
best-scoring DesignVersion: its recorded best is an entry of the score log
whose total violation magnitude is minimal across all evaluated iterations —
a best-effort result distinct from the Failed error states. -/
theorem exhausted_returns_best_version (cfg : Config) (n : Nat)
    (h : (runSteps cfg n initSession).state = CState.exhausted) :
    ∃ v sc, (runSteps cfg n initSession).best = some (v, sc) ∧
      (v, sc) ∈ (runSteps cfg n initSession).scores ∧
      ∀ p ∈ (runSteps cfg n initSession).scores, sc ≤ p.2 := by
  obtain ⟨h1, h2, _, h4⟩ := inv_run cfg n initSession inv_init
  have hne := h4 h
  cases hb : (runSteps cfg n initSession).best with
  | none => exact absurd (h1 hb) hne
  | some p =>
      obtain ⟨v, sc⟩ := p
      exact ⟨v, sc, rfl, h2 v sc hb⟩

/-- Witness for C7: the zero-budget leaky NOT gate session ends Exhausted
after four transitions, and the theorem yields its minimal-score version. -/
theorem exhausted_returns_best_witness :
    (runSteps cfg9 4 initSession).state = CState.exhausted ∧
      ∃ v sc, (runSteps cfg9 4 initSession).best = some (v, sc) ∧
        (v, sc) ∈ (runSteps cfg9 4 initSession).scores ∧
        ∀ p ∈ (runSteps cfg9 4 initSession).scores, sc ≤ p.2 :=
  ⟨by norm_num [runSteps, step, initSession, cfg9, spec9, sr9a, pa9, tune9, evaluate,
      maxLevel, maxLevelFor, minOnLevel, upperViolation, lowerViolation, zeroViol,
      totalViolation, plan, hasLogicFailure, overageOf, outGate, applyAction,
      updateBest, improvedOver, plannedAction, nextVersion],
    exhausted_returns_best_version cfg9 4
      (by norm_num [runSteps, step, initSession, cfg9, spec9, sr9a, pa9, tune9, evaluate,
        maxLevel, maxLevelFor, minOnLevel, upperViolation, lowerViolation, zeroViol,
        totalViolation, plan, hasLogicFailure, overageOf, outGate, applyAction,
        updateBest, improvedOver, plannedAction, nextVersion])⟩

/-- Witness for C6: a concrete configuration whose synthesizer returns
failure reaches Failed with `synthesisUnsatisfiable` after one transition,
with zero simulator invocations. -/
theorem unsat_synthesis_witness :
    cfg6.synth cfg6.circSpec = none ∧ 1 ≤ 1 ∧
      ((runSteps cfg6 1 initSession).state
          = CState.failed FailureKind.synthesisUnsatisfiable ∧
        (runSteps cfg6 1 initSession).simCalls = 0) :=
  ⟨rfl, le_refl 1, unsat_synthesis_fails_without_simulation cfg6 1 rfl (le_refl 1)⟩

